import Mathlib

/-!
# Verification of the `llm-samplers` crate against its specification

Shallow embedding of the crate's data model and the operations the claims
need.  Rust `f32`/`f64` logit arithmetic is embedded with exact rationals
(`ℚ`); machine rounding is irrelevant to the claims settled here, which turn
on control flow, order of updates, and exact field arithmetic.
Transcendental functions (`exp`, `log2`) used by softmax and the mirostat
samplers are taken as function parameters, so theorems hold for every
realisation of them.  Token ids (`TID`) are embedded as `Int` so that the
fallible `to_usize` conversion in the source is representable.
-/

namespace LlmSamplers

/-- Embeds `SamplerError` from `src/types.rs` (variants that the embedded
code paths can produce). -/
inductive SamplerError where
  | internalError (msg : String)
  | missingResource (msg : String)
  | invalidLogit (idx : Nat)
  | randWeightedError
deriving Repr, DecidableEq

/-- Embeds `Logit` from `src/types.rs`: token id, logit score, derived
probability. -/
structure Logit where
  token_id : Int
  logit : ℚ
  prob : ℚ
deriving Repr, DecidableEq, Inhabited

/-- Embeds `Logits` from `src/types.rs`: the entry list plus the
"sorted descending by logit" validity flag. -/
structure Logits where
  sorted : Bool
  logits : List Logit
deriving Repr, DecidableEq, Inhabited

/-! ## Sampler chain (`src/chain.rs` / `src/types.rs`, `SamplerChain`)

A chain stage is a boxed `dyn Sampler`; the chain's `sample` calls the
stage's `sample` and then immediately queries `sampled_token_id`.  A stage
is therefore embedded as a function from the logits buffer to either a
failure or the transformed buffer paired with the token the stage reports
right after the call (stage-internal state is absorbed into the function,
which is all the chain-level claims observe). -/

/-- One chain stage: the combined effect of `sampler.sample` followed by
`sampler.sampled_token_id()` as observed by `SamplerChain::sample`. -/
def StageFn : Type := Logits → Except SamplerError (Logits × Option Int)

/-- Embeds `SamplerChain`: ordered stage list plus the cached token. -/
structure SamplerChain where
  samplers : List StageFn
  token : Option Int

/-- The `try_fold` inside `SamplerChain::sample`: each successful stage's
report unconditionally overwrites the accumulator
(`self.token = sampler.sampled_token_id()`); the first failure propagates. -/
def chainFold : List StageFn → Option Int → Logits →
    Except SamplerError (Option Int × Logits)
  | [], tok, lg => .ok (tok, lg)
  | s :: rest, _tok, lg =>
    match s lg with
    | .error e => .error e
    | .ok (lg', t) => chainFold rest t lg'

/-- Embeds `SamplerChain::sample` (`src/chain.rs:37-50`): clears the cached
token (`self.token = None`), then left-folds the stages. -/
def SamplerChain.sample (c : SamplerChain) (lg : Logits) :
    Except SamplerError (SamplerChain × Logits) :=
  match chainFold c.samplers none lg with
  | .error e => .error e
  | .ok (tok, lg') => .ok ({ c with token := tok }, lg')

/-- Embeds `SamplerChain::sampled_token_id`. -/
def SamplerChain.sampled_token_id (c : SamplerChain) : Option Int := c.token

/-- Refinement-side definition, following the spec's words for C1:
"the most recent non-empty report among the stages" — a later non-empty
report overrides an earlier one, a later empty report does not. -/
def mostRecentNonEmpty (reports : List (Option Int)) : Option Int :=
  reports.foldl (fun acc r => match r with | some t => some t | none => acc) none

/-- A concrete logits buffer used for counterexamples. -/
def lgEx : Logits := { sorted := false, logits := [⟨0, 1, 0⟩, ⟨1, 2, 0⟩] }

/-- Stage that succeeds, reports token 5, leaves the buffer alone. -/
def stageSome5 : StageFn := fun lg => .ok (lg, some 5)

/-- Stage that succeeds, reports no selection, leaves the buffer alone. -/
def stageNone : StageFn := fun lg => .ok (lg, none)

theorem chainFold_some5_none :
    chainFold [stageSome5, stageNone] none lgEx = .ok (none, lgEx) := rfl

/-- C1 counterexample: in the chain `[stageSome5, stageNone]` the first stage
reports token 5 and the second reports no selection.  The claim says the
cached token after a successful `sample` is the most recent non-empty report
(`some 5`); the code's fold overwrites the cache with the second stage's
empty report, so the cached token is `none`. -/
theorem C1_counterexample :
    ∃ c' lg', SamplerChain.sample ⟨[stageSome5, stageNone], some 99⟩ lgEx
        = .ok (c', lg') ∧
      mostRecentNonEmpty [some 5, none] = some 5 ∧
      c'.sampled_token_id = none ∧
      c'.sampled_token_id ≠ mostRecentNonEmpty [some 5, none] := by
  refine ⟨⟨[stageSome5, stageNone], none⟩, lgEx, rfl, rfl, rfl, by decide⟩

/-- Helper for the amended C1: appending a final stage to a successful fold. -/
theorem chainFold_append_last (stages : List StageFn) (s : StageFn) :
    ∀ (tok : Option Int) (lg : Logits) (res : Option Int × Logits),
      chainFold (stages ++ [s]) tok lg = .ok res →
      ∃ lgmid, s lgmid = .ok (res.2, res.1) := by
  induction stages with
  | nil =>
    intro tok lg res h
    simp only [List.nil_append, chainFold] at h
    cases hs : s lg with
    | error e => rw [hs] at h; exact absurd h (by simp [chainFold])
    | ok p =>
      rw [hs] at h
      simp only [chainFold] at h
      cases h
      exact ⟨lg, by rw [hs]⟩
  | cons s0 rest ih =>
    intro tok lg res h
    simp only [List.cons_append, chainFold] at h
    cases hs : s0 lg with
    | error e => rw [hs] at h; exact absurd h (by simp)
    | ok p =>
      rw [hs] at h
      exact ih p.2 p.1 res h

/-- C1 amended: `SamplerChain::sample` clears the cached token at the start,
and after a successful fold the cached token equals the report of the *last*
stage on the buffer it received — a later stage's report always overrides an
earlier one, **including an empty report**.  (For an empty chain the cached
token is the cleared `none`.) -/
theorem C1_amended (stages : List StageFn) (s : StageFn) (c : SamplerChain)
    (lg : Logits) (c' : SamplerChain) (lg' : Logits)
    (hc : c.samplers = stages ++ [s])
    (h : c.sample lg = .ok (c', lg')) :
    (∃ lgmid, s lgmid = .ok (lg', c'.sampled_token_id)) ∧
      (∀ c₀ : SamplerChain, c₀.samplers = [] →
        c₀.sample lg = .ok ({ c₀ with token := none }, lg)) := by
  constructor
  · unfold SamplerChain.sample at h
    rw [hc] at h
    cases hfold : chainFold (stages ++ [s]) none lg with
    | error e => rw [hfold] at h; exact absurd h (by simp)
    | ok res =>
      rw [hfold] at h
      simp only [Except.ok.injEq, Prod.mk.injEq] at h
      obtain ⟨hc', hlg'⟩ := h
      obtain ⟨lgmid, hm⟩ := chainFold_append_last stages s none lg res hfold
      refine ⟨lgmid, ?_⟩
      rw [hm, ← hc']
      subst hlg'
      rfl
  · intro c₀ h₀
    unfold SamplerChain.sample
    rw [h₀]
    rfl

/-- Witness for `C1_amended` at a concrete chain. -/
theorem C1_amended_witness :
    (∃ lgmid, stageNone lgmid =
        .ok (lgEx, SamplerChain.sampled_token_id ⟨[stageSome5, stageNone], none⟩)) ∧
      (∀ c₀ : SamplerChain, c₀.samplers = [] →
        c₀.sample lgEx = .ok ({ c₀ with token := none }, lgEx)) :=
  C1_amended [stageSome5] stageNone ⟨[stageSome5, stageNone], some 99⟩ lgEx
    ⟨[stageSome5, stageNone], none⟩ lgEx rfl rfl

/-- Helper for C5: a successful prefix of the fold just threads through. -/
theorem chainFold_append (stages1 stages2 : List StageFn) :
    ∀ (tok : Option Int) (lg : Logits) (tokm : Option Int) (lgm : Logits),
      chainFold stages1 tok lg = .ok (tokm, lgm) →
      chainFold (stages1 ++ stages2) tok lg = chainFold stages2 tokm lgm := by
  induction stages1 with
  | nil =>
    intro tok lg tokm lgm h
    simp only [chainFold] at h
    cases h
    simp
  | cons s0 rest ih =>
    intro tok lg tokm lgm h
    simp only [chainFold] at h ⊢
    cases hs : s0 lg with
    | error e => rw [hs] at h; exact absurd h (by simp)
    | ok p =>
      rw [hs] at h
      obtain ⟨lg', t⟩ := p
      exact ih t lg' tokm lgm h

/-- C5: if the stages before `s` all succeed (producing intermediate buffer
`lgm`) and `s` fails with `e`, then `SamplerChain::sample` of
`stages1 ++ s :: stages2` returns exactly that failure `e` — whatever the
stages after `s` are (so none of them is invoked, there is no retry and no
partial result is produced). -/
theorem C5_first_failure (stages1 stages2 : List StageFn) (s : StageFn)
    (c : SamplerChain) (lg : Logits) (tokm : Option Int) (lgm : Logits)
    (e : SamplerError)
    (hc : c.samplers = stages1 ++ s :: stages2)
    (hpre : chainFold stages1 none lg = .ok (tokm, lgm))
    (hfail : s lgm = .error e) :
    c.sample lg = .error e := by
  unfold SamplerChain.sample
  rw [hc, chainFold_append stages1 (s :: stages2) none lg tokm lgm hpre]
  simp only [chainFold]
  rw [hfail]

/-- Stage that always fails with an internal error. -/
def stageFail : StageFn := fun _ => .error (.internalError "boom")

/-- Witness for `C5_first_failure` at a concrete chain: the chain
`[stageSome5, stageFail, stageNone]` fails with `stageFail`'s error. -/
theorem C5_first_failure_witness :
    SamplerChain.sample ⟨[stageSome5, stageFail, stageNone], none⟩ lgEx
      = .error (.internalError "boom") :=
  C5_first_failure [stageSome5] [stageNone] stageFail
    ⟨[stageSome5, stageFail, stageNone], none⟩ lgEx (some 5) lgEx
    (.internalError "boom") rfl rfl rfl

/-! ## Shared list helpers -/

/-- In-place update of the element at index `i` (Rust `list[i] = ...`). -/
def modifyIdx {α : Type} : List α → Nat → (α → α) → List α
  | [], _, _ => []
  | a :: as, 0, f => f a :: as
  | a :: as, n+1, f => a :: modifyIdx as n f

theorem length_modifyIdx {α : Type} (l : List α) (i : Nat) (f : α → α) :
    (modifyIdx l i f).length = l.length := by
  induction l generalizing i with
  | nil => rfl
  | cons a as ih =>
    cases i with
    | zero => rfl
    | succ n => simp [modifyIdx, ih]

theorem get?_modifyIdx {α : Type} (l : List α) (i j : Nat) (f : α → α) :
    (modifyIdx l i f).get? j =
      if i = j then (l.get? j).map f else l.get? j := by
  induction l generalizing i j with
  | nil => simp [modifyIdx]
  | cons a as ih =>
    cases i with
    | zero =>
      cases j with
      | zero => simp [modifyIdx]
      | succ m => simp [modifyIdx]
    | succ n =>
      cases j with
      | zero => simp [modifyIdx]
      | succ m =>
        simp only [modifyIdx, List.get?_cons_succ, ih]
        by_cases h : n = m <;> simp [h]

/-- The trailing window of `last_n` tokens: the source's
`if last_n > orig_tokens.len() { orig_tokens } else { &orig_tokens[orig_tokens.len() - last_n..] }`. -/
def lastWindow (last_n : Nat) (tokens : List Int) : List Int :=
  if last_n > tokens.length then tokens else tokens.drop (tokens.length - last_n)

/-- The fallible `TID::to_usize` conversion (`num_traits::ToPrimitive`). -/
def intToUsize (i : Int) : Option Nat := if 0 ≤ i then some i.toNat else none

/-! ## Frequency/presence penalty (`src/samplers/freq_presence.rs`) -/

/-- Embeds the fields of `SampleFreqPresence`. -/
structure SampleFreqPresence where
  frequency_penalty : ℚ
  presence_penalty : ℚ
  last_n : Nat
deriving Repr, DecidableEq

/-- The source's `counts: HashMap<TID, L>` built from the window;
`counts.get(&tid)` yields the occurrence count exactly when `tid`
occurs in the window. -/
def countsGet (window : List Int) (tid : Int) : Option ℚ :=
  if window.contains tid then some (window.count tid : ℚ) else none

/-- Embeds `SampleFreqPresence::sample` (`src/samplers/freq_presence.rs:67-114`).
The token-history resource is passed as `lastTokens` (the claim's setting has
the resource present).  Note the source's guard: it returns the buffer
untouched when the buffer is empty, `last_n == 0`, **or either penalty is
zero** (`||` between the two penalty tests). -/
def freqPresenceSample (s : SampleFreqPresence) (lastTokens : List Int)
    (lg : Logits) : Logits :=
  if lg.logits.isEmpty || s.last_n == 0 || s.frequency_penalty == 0
      || s.presence_penalty == 0 then
    lg
  else
    let window := lastWindow s.last_n lastTokens
    let newLogits := lg.logits.map fun l =>
      match countsGet window l.token_id with
      | some cnt =>
        { l with logit := l.logit -
            (cnt * s.frequency_penalty
              + (if 0 < cnt then (1:ℚ) else 0) * s.presence_penalty) }
      | none => l
    { sorted := false, logits := newLogits }

/-- The setting of the repository's `test_build1` (src/tests.rs) up to the
penalty magnitude: a nonzero `frequency_penalty` (the test configures `0.5`;
`2` here), `presence_penalty` left at its `0.0` default, `last_n = 4`;
history `[0,1,2,3,3,0,0]` whose trailing window is `[3,3,0,0]`. -/
def fpC2 : SampleFreqPresence := ⟨2, 0, 4⟩

/-- Four logits with ids 0..3, as in `test_build1`. -/
def lgC2 : Logits :=
  { sorted := false,
    logits := [⟨0, 1, 0⟩, ⟨1, 1, 0⟩, ⟨2, 1, 0⟩, ⟨3, 1, 0⟩] }

/-- C2 (code bug evaluation): with `frequency_penalty = 2`,
`presence_penalty = 0`, `last_n = 4` and history `[0,1,2,3,3,0,0]`
(non-empty window `[3,3,0,0]`, in which token 3 occurs twice), the source's
`||` guard makes the call a no-op, although the claim — and the sampler's
own doc example and the repository's `test_build1` — require
`c·frequency_penalty` to be subtracted from the logits of tokens 0 and 3. -/
theorem C2_code_eval :
    freqPresenceSample fpC2 [0, 1, 2, 3, 3, 0, 0] lgC2 = lgC2 ∧
      countsGet (lastWindow fpC2.last_n [0, 1, 2, 3, 3, 0, 0]) 3 = some 2 ∧
      fpC2.frequency_penalty ≠ 0 := by
  refine ⟨rfl, by norm_num [countsGet, lastWindow, fpC2], by norm_num [fpC2]⟩

/-! ## Flat bias (`src/samplers/flat_bias.rs`) -/

/-- Embeds the `SampleFlatBias` state: the bias list. -/
structure SampleFlatBias where
  bias : List (Int × ℚ)
deriving Repr, DecidableEq

/-- One iteration of the bias loop of `SampleFlatBias::sample`: for a
`(tid, bv)` pair, if `tid.to_usize()` succeeds and is a valid index, add
`bv` to the logit at that *position*.  (The source captures
`valid_tid = 0..logits.len()` before the loop; the loop never changes the
length, so testing against the current length is equivalent.) -/
def flatBiasStep (ls : List Logit) (p : Int × ℚ) : List Logit :=
  match intToUsize p.1 with
  | some t =>
    if t < ls.length then
      modifyIdx ls t (fun l => { l with logit := l.logit + p.2 })
    else ls
  | none => ls

/-- The whole bias loop (`self.bias.iter().for_each(...)`). -/
def flatBiasApply (bias : List (Int × ℚ)) (ls : List Logit) : List Logit :=
  bias.foldl flatBiasStep ls

/-- Embeds `SampleFlatBias::sample` (`src/samplers/flat_bias.rs:49-64`): it
always returns `Ok` and does not touch the sorted flag. -/
def flatBiasSample (s : SampleFlatBias) (lg : Logits) :
    Except SamplerError Logits :=
  .ok { lg with logits := flatBiasApply s.bias lg.logits }

/-- Total bias applied at buffer position `i`: the sum of the bias values
whose token id converts to exactly `i`. -/
def biasSumAt (bias : List (Int × ℚ)) (i : Nat) : ℚ :=
  ((bias.filter (fun p => intToUsize p.1 == some i)).map Prod.snd).sum

theorem biasSumAt_cons (p : Int × ℚ) (rest : List (Int × ℚ)) (i : Nat) :
    biasSumAt (p :: rest) i =
      (if intToUsize p.1 = some i then p.2 else 0) + biasSumAt rest i := by
  unfold biasSumAt
  by_cases h : intToUsize p.1 = some i <;>
    simp [List.filter_cons, h]

theorem length_flatBiasStep (ls : List Logit) (p : Int × ℚ) :
    (flatBiasStep ls p).length = ls.length := by
  unfold flatBiasStep
  cases h : intToUsize p.1 with
  | none => rfl
  | some t =>
    by_cases ht : t < ls.length <;> simp [ht, length_modifyIdx]

theorem get?_flatBiasStep (ls : List Logit) (p : Int × ℚ) (i : Nat)
    (hi : i < ls.length) :
    (flatBiasStep ls p).get? i =
      (ls.get? i).map
        (fun old => { old with logit :=
            old.logit + (if intToUsize p.1 = some i then p.2 else 0) }) := by
  unfold flatBiasStep
  cases h : intToUsize p.1 with
  | none =>
    simp only [reduceCtorEq, if_false, add_zero]
    cases ls.get? i <;> rfl
  | some t =>
    by_cases hti : t = i
    · subst hti
      have ht : t < ls.length := hi
      simp only [ht, if_true, get?_modifyIdx, if_pos rfl]
    · by_cases ht : t < ls.length
      · simp only [ht, if_true, get?_modifyIdx, hti, if_false,
          Option.some.injEq]
        have : ¬ ((some t : Option Nat) = some i) := by simp [hti]
        simp only [this, if_false, add_zero]
        cases ls.get? i <;> rfl
      · have : ¬ ((some t : Option Nat) = some i) := by simp [hti]
        simp only [ht, if_false, this, add_zero]
        cases ls.get? i <;> rfl

theorem length_flatBiasApply (bias : List (Int × ℚ)) (ls : List Logit) :
    (flatBiasApply bias ls).length = ls.length := by
  induction bias generalizing ls with
  | nil => rfl
  | cons p rest ih =>
    show (flatBiasApply rest (flatBiasStep ls p)).length = ls.length
    rw [ih, length_flatBiasStep]

theorem get?_flatBiasApply (bias : List (Int × ℚ)) (i : Nat) :
    ∀ ls : List Logit, i < ls.length →
    (flatBiasApply bias ls).get? i =
      (ls.get? i).map
        (fun old => { old with logit := old.logit + biasSumAt bias i }) := by
  induction bias with
  | nil =>
    intro ls hi
    simp only [flatBiasApply, List.foldl_nil, biasSumAt, List.filter_nil,
      List.map_nil, List.sum_nil]
    cases ls.get? i with
    | none => rfl
    | some old => simp
  | cons p rest ih =>
    intro ls hi
    have step : flatBiasApply (p :: rest) ls
        = flatBiasApply rest (flatBiasStep ls p) := rfl
    rw [step, ih (flatBiasStep ls p) (by rw [length_flatBiasStep]; exact hi),
      get?_flatBiasStep ls p i hi, biasSumAt_cons]
    cases ls.get? i with
    | none => rfl
    | some old =>
      simp only [Option.map_some']
      congr 1
      simp [add_assoc]

/-- C9: `SampleFlatBias::sample` never fails, adds each bias value to the
entry at *vector position* `tid as usize` (token ids failing the conversion
or not below the buffer length contribute nothing), keeps every entry's
`token_id` and `prob` fields and the buffer length, and leaves the sorted
flag untouched. -/
theorem C9_flat_bias (s : SampleFlatBias) (lg : Logits) :
    ∃ out, flatBiasSample s lg = .ok out ∧
      out.sorted = lg.sorted ∧
      out.logits.length = lg.logits.length ∧
      ∀ i, i < lg.logits.length →
        ∃ old, lg.logits.get? i = some old ∧
          out.logits.get? i =
            some { old with logit := old.logit + biasSumAt s.bias i } := by
  refine ⟨{ lg with logits := flatBiasApply s.bias lg.logits }, rfl, rfl,
    length_flatBiasApply s.bias lg.logits, ?_⟩
  intro i hi
  have hold : lg.logits.get? i = some (lg.logits.get ⟨i, hi⟩) :=
    List.get?_eq_get hi
  refine ⟨lg.logits.get ⟨i, hi⟩, hold, ?_⟩
  rw [show ({ lg with logits := flatBiasApply s.bias lg.logits } : Logits).logits
        = flatBiasApply s.bias lg.logits from rfl,
    get?_flatBiasApply s.bias i lg.logits hi, hold]
  rfl

/-- Witness for `C9_flat_bias`: a bias list with a negative id (conversion
fails), an out-of-range id, and an in-range id, applied to a concrete
buffer. -/
theorem C9_flat_bias_witness :
    ∃ out, flatBiasSample ⟨[(-1, 7), (9, 5), (1, 3)]⟩ lgEx = .ok out ∧
      out.sorted = lgEx.sorted ∧
      out.logits.length = lgEx.logits.length ∧
      ∀ i, i < lgEx.logits.length →
        ∃ old, lgEx.logits.get? i = some old ∧
          out.logits.get? i =
            some { old with logit :=
                     old.logit + biasSumAt [(-1, 7), (9, 5), (1, 3)] i } :=
  C9_flat_bias ⟨[(-1, 7), (9, 5), (1, 3)]⟩ lgEx

/-! ## Configuration layer (`src/configure/`) -/

/-- Models Rust `str::trim` (drop whitespace from both ends). -/
def strTrim (s : String) : String :=
  ⟨((s.data.dropWhile Char.isWhitespace).reverse.dropWhile
      Char.isWhitespace).reverse⟩

/-- Models Rust `str::starts_with` with a string pattern. -/
def strStartsWith (s pre : String) : Bool := pre.data.isPrefixOf s.data

/-- Embeds `ConfigureSamplerError` from `src/configure/mod.rs`. -/
inductive ConfigureSamplerError where
  | unknownOrBadType (key : String)
  | ambiguousKey (key : String)
  | conversionFailure (key : String)
  | cannotAccessOptionValue (key : String)
deriving Repr, DecidableEq

/-- Embeds `SamplerOptionType` from `src/configure/value.rs`. -/
inductive SamplerOptionType where
  | uint
  | float
  | bool
  | string
deriving Repr, DecidableEq

/-- Embeds `SamplerOptionMetadata` from `src/configure/metadata.rs`. -/
structure SamplerOptionMetadata where
  key : String
  description : Option String
  option_type : SamplerOptionType
deriving Repr, DecidableEq

/-- Embeds `SamplerOptions::find_option_definition`
(`src/configure/metadata.rs:69-92`) over the option list; the `Bool` is
`acc.is_some()` (whether the entry carries an accessor).  The source walks a
`filter_map` iterator, takes its first element (zero matches fail with
`UnknownOrBadType`) and fails with `AmbiguousKey` when the iterator yields a
second element; this is the same as matching on the filtered list. -/
def find_option_definition (opts : List (SamplerOptionMetadata × Bool))
    (key : String) :
    Except ConfigureSamplerError (SamplerOptionMetadata × Option Nat) :=
  let key := strTrim key
  match (opts.enum.filter (fun p => strStartsWith p.2.1.key key)) with
  | [] =>
    .error (.unknownOrBadType (if key.isEmpty then "<unspecified>" else key))
  | (idx, (omd, acc)) :: rest =>
    if rest.isEmpty then .ok (omd, if acc then some idx else none)
    else .error (.ambiguousKey key)

/-- `SampleMirostat1`'s declared option list
(`src/samplers/mirostat.rs:186-218`, accessors all present per
`sampler_options_mut`). -/
def mirostat1Options : List (SamplerOptionMetadata × Bool) :=
  [(⟨"tau", none, .float⟩, true),
   (⟨"eta", none, .float⟩, true),
   (⟨"mu", none, .float⟩, true),
   (⟨"m", none, .uint⟩, true),
   (⟨"n_vocab", none, .uint⟩, true)]

/-- C4 counterexample: `SampleMirostat1` declares both `"m"` and `"mu"`;
the key `"m"` is exactly equal to the declared option name `"m"`, yet
`find_option_definition` has no exact-match shortcut — both `"m"` and
`"mu"` have `"m"` as a prefix, so the call fails with `AmbiguousKey`
instead of resolving to the `"m"` option as the claim states. -/
theorem C4_counterexample :
    find_option_definition mirostat1Options "m"
        = .error (.ambiguousKey "m") ∧
      ∀ r, find_option_definition mirostat1Options "m" ≠ .ok r := by
  refine ⟨rfl, ?_⟩
  intro r h
  rw [show find_option_definition mirostat1Options "m"
      = .error (.ambiguousKey "m") from rfl] at h
  exact absurd h (by simp)

/-- Number of declared option names having the (already trimmed) key as a
prefix. -/
def matchCount (opts : List (SamplerOptionMetadata × Bool)) (k : String) :
    Nat :=
  opts.countP (fun p => strStartsWith p.1.key k)

theorem enumFrom_filter_length {α : Type} (q : α → Bool) :
    ∀ (l : List α) (n : Nat),
      ((List.enumFrom n l).filter (fun p => q p.2)).length = l.countP q := by
  intro l
  induction l with
  | nil => intro n; rfl
  | cons a as ih =>
    intro n
    simp only [List.enumFrom, List.filter_cons, List.countP_cons]
    by_cases hq : q a
    · simp [hq, ih (n + 1)]
    · simp [hq, ih (n + 1)]

theorem enum_filter_length {α : Type} (q : α → Bool) (l : List α) :
    ((l.enum).filter (fun p => q p.2)).length = l.countP q :=
  enumFrom_filter_length q l 0

theorem mem_enumFrom_get? {α : Type} :
    ∀ (l : List α) (n : Nat) (p : Nat × α),
      p ∈ List.enumFrom n l → n ≤ p.1 ∧ l.get? (p.1 - n) = some p.2 := by
  intro l
  induction l with
  | nil => intro n p h; exact absurd h (by simp [List.enumFrom])
  | cons a as ih =>
    intro n p h
    simp only [List.enumFrom, List.mem_cons] at h
    rcases h with h | h
    · subst h
      exact ⟨Nat.le_refl n, by simp⟩
    · obtain ⟨h1, h2⟩ := ih (n + 1) p h
      refine ⟨Nat.le_of_succ_le h1, ?_⟩
      have : p.1 - n = (p.1 - (n + 1)) + 1 := by omega
      rw [this]
      simpa using h2

/-- C4 amended: key resolution is *purely* prefix-based, with no special
priority for an exact match.  For every option list and key: zero declared
names having the trimmed key as a prefix fails with `UnknownOrBadType`
(reporting `<unspecified>` for an empty key); two or more fail with
`AmbiguousKey`; exactly one resolves to that option (with its index when its
accessor is present); and an empty key prefix-matches every declared name,
so it succeeds exactly when the sampler declares exactly one option. -/
theorem C4_amended (opts : List (SamplerOptionMetadata × Bool))
    (key : String) :
    (matchCount opts (strTrim key) = 0 →
      find_option_definition opts key
        = .error (.unknownOrBadType
            (if (strTrim key).isEmpty then "<unspecified>" else strTrim key))) ∧
    (2 ≤ matchCount opts (strTrim key) →
      find_option_definition opts key = .error (.ambiguousKey (strTrim key))) ∧
    (matchCount opts (strTrim key) = 1 →
      ∃ idx omd acc, opts.get? idx = some (omd, acc) ∧
        strStartsWith omd.key (strTrim key) = true ∧
        find_option_definition opts key
          = .ok (omd, if acc then some idx else none)) ∧
    (strTrim key = "" →
      (matchCount opts (strTrim key) = opts.length ∧
        ((∃ r, find_option_definition opts key = .ok r) ↔ opts.length = 1))) := by
  have hlen : (opts.enum.filter
      (fun p => strStartsWith p.2.1.key (strTrim key))).length
      = matchCount opts (strTrim key) := by
    unfold matchCount
    exact enum_filter_length (fun a => strStartsWith a.1.key (strTrim key)) opts
  have hfind : find_option_definition opts key
      = match (opts.enum.filter
          (fun p => strStartsWith p.2.1.key (strTrim key))) with
        | [] => .error (.unknownOrBadType
            (if (strTrim key).isEmpty then "<unspecified>" else strTrim key))
        | (idx, (omd, acc)) :: rest =>
          if rest.isEmpty then .ok (omd, if acc then some idx else none)
          else .error (.ambiguousKey (strTrim key)) := rfl
  refine ⟨?_, ?_, ?_, ?_⟩
  · intro h0
    rw [hfind]
    rw [h0] at hlen
    rw [List.length_eq_zero.mp hlen]
  · intro h2
    rw [hfind]
    rw [← hlen] at h2
    cases hf : opts.enum.filter
        (fun p => strStartsWith p.2.1.key (strTrim key)) with
    | nil => rw [hf] at h2; exact absurd h2 (by simp)
    | cons x rest =>
      cases rest with
      | nil => rw [hf] at h2; exact absurd h2 (by simp)
      | cons y t =>
        obtain ⟨idx, omd, acc⟩ := x
        simp
  · intro h1
    rw [← hlen] at h1
    obtain ⟨x, hf⟩ := List.length_eq_one.mp h1
    obtain ⟨idx, md, acc⟩ := x
    have hx : (idx, (md, acc)) ∈ opts.enum.filter
        (fun p => strStartsWith p.2.1.key (strTrim key)) := by
      rw [hf]; exact List.mem_singleton.mpr rfl
    have hmem := List.mem_filter.mp hx
    have hget := mem_enumFrom_get? opts 0 (idx, (md, acc))
      (show (idx, (md, acc)) ∈ List.enumFrom 0 opts from hmem.1)
    refine ⟨idx, md, acc, ?_, hmem.2, ?_⟩
    · have := hget.2
      simpa using this
    · rw [hfind, hf]
      rfl
  · intro hk
    have hmc : matchCount opts (strTrim key) = opts.length := by
      unfold matchCount
      rw [List.countP_eq_length.mpr]
      intro p _
      rw [hk]
      unfold strStartsWith
      simp [List.isPrefixOf]
    refine ⟨hmc, ?_, ?_⟩
    · rintro ⟨r, hr⟩
      by_contra hne
      rw [hfind] at hr
      rcases Nat.lt_or_ge opts.length 1 with hlt | hge
      · have h0 : (opts.enum.filter
            (fun p => strStartsWith p.2.1.key (strTrim key))) = [] := by
          apply List.length_eq_zero.mp
          rw [hlen, hmc]; omega
        rw [h0] at hr
        exact absurd hr (by simp)
      · have h2 : 2 ≤ (opts.enum.filter
            (fun p => strStartsWith p.2.1.key (strTrim key))).length := by
          rw [hlen, hmc]; omega
        cases hf : opts.enum.filter
            (fun p => strStartsWith p.2.1.key (strTrim key)) with
        | nil => rw [hf] at h2; exact absurd h2 (by simp)
        | cons x rest =>
          cases rest with
          | nil => rw [hf] at h2; exact absurd h2 (by simp)
          | cons y t =>
            obtain ⟨idx, md, acc⟩ := x
            rw [hf] at hr
            exact absurd hr (by simp)
    · intro h1
      have hm1 : matchCount opts (strTrim key) = 1 := by rw [hmc]; exact h1
      rw [← hlen] at hm1
      obtain ⟨x, hf⟩ := List.length_eq_one.mp hm1
      obtain ⟨idx, md, acc⟩ := x
      refine ⟨(md, if acc then some idx else none), ?_⟩
      rw [hfind, hf]
      rfl

/-- Witness for `C4_amended` at `SampleMirostat1`'s option list: zero
matches for `"zzz"`, a unique prefix match for `"et"`, and empty-key failure
on a five-option sampler. -/
theorem C4_amended_witness :
    find_option_definition mirostat1Options "zzz"
        = .error (.unknownOrBadType "zzz") ∧
      (∃ idx omd acc, mirostat1Options.get? idx = some (omd, acc) ∧
        strStartsWith omd.key (strTrim "et") = true ∧
        find_option_definition mirostat1Options "et"
          = .ok (omd, if acc then some idx else none)) ∧
      ¬ (∃ r, find_option_definition mirostat1Options "" = .ok r) := by
  refine ⟨?_, ?_, ?_⟩
  · have h := (C4_amended mirostat1Options "zzz").1 (by decide)
    simpa using h
  · exact (C4_amended mirostat1Options "et").2.2.1 (by decide)
  · intro hr
    have h := ((C4_amended mirostat1Options "").2.2.2 (by decide)).2.mp hr
    exact absurd h (by decide)

/-! ## Value parsing (`src/configure/value.rs`) -/

/-- Parse errors of the value grammar (the source wraps these in `anyhow`;
only their identity matters here). -/
inductive ParseError where
  | parseIntError
  | parseFloatError
  | badBoolValue
deriving Repr, DecidableEq

/-- An `f64` value as far as the parsing claims are concerned: an exact
finite rational, one of the two infinities, or NaN.  (Machine rounding of
finite values is abstracted away; no claim depends on it.) -/
inductive FloatVal where
  | finite (q : ℚ)
  | inf
  | negInf
  | nan
deriving Repr, DecidableEq

/-- Embeds `SamplerOptionValue` from `src/configure/value.rs`. -/
inductive SamplerOptionValue where
  | uint (n : Nat)
  | float (v : FloatVal)
  | bool (b : Bool)
  | str (s : String)
deriving Repr, DecidableEq

/-- Numeric value of a decimal digit character. -/
def digitVal (c : Char) : Nat := c.toNat - 48

/-- Value of a decimal digit string. -/
def natOfDigits (ds : List Char) : Nat :=
  ds.foldl (fun a c => a * 10 + digitVal c) 0

/-- Case-insensitive comparison against a lowercase word. -/
def lowerEq (cs w : List Char) : Bool := decide (cs.map Char.toLower = w)

/-- Strip one leading sign character; returns (isNegative, rest). -/
def stripSign (cs : List Char) : Bool × List Char :=
  match cs with
  | c :: r =>
    if c = '-' then (true, r) else if c = '+' then (false, r) else (false, cs)
  | [] => (false, cs)

/-- The optional exponent suffix of a decimal float literal:
empty, or `e`/`E`, an optional sign and at least one digit. -/
def parseExpPart (cs : List Char) : Option Int :=
  if cs.isEmpty then some 0
  else if cs.head? = some 'e' ∨ cs.head? = some 'E' then
    let sn := stripSign cs.tail
    let ds := sn.2.takeWhile Char.isDigit
    if ds.isEmpty || !(sn.2.dropWhile Char.isDigit).isEmpty then none
    else some (if sn.1 then -(natOfDigits ds : Int) else (natOfDigits ds : Int))
  else none

/-- Modelled from the Rust standard library: `<f64 as FromStr>::from_str`
(the fallthrough arm of `SamplerOptionValue::parse_float`), per its
documented grammar: an optional sign followed by `inf`, `infinity` or `nan`
matched case-insensitively, or a decimal significand
(`Digit+ | Digit+ '.' Digit* | Digit* '.' Digit+`) with an optional
`e`/`E` exponent.  Finite values are kept as exact rationals. -/
def rustFloatFromStr (t : String) : Option FloatVal :=
  let sn := stripSign t.data
  let neg := sn.1
  let body := sn.2
  if lowerEq body ['i', 'n', 'f']
      || lowerEq body ['i', 'n', 'f', 'i', 'n', 'i', 't', 'y'] then
    some (if neg then .negInf else .inf)
  else if lowerEq body ['n', 'a', 'n'] then some .nan
  else
    let intPart := body.takeWhile Char.isDigit
    let rest := body.dropWhile Char.isDigit
    let dotted : Bool := decide (rest.head? = some '.')
    let fracPart := if dotted then rest.tail.takeWhile Char.isDigit else []
    let rest2 := if dotted then rest.tail.dropWhile Char.isDigit else rest
    if intPart.isEmpty && fracPart.isEmpty then none
    else
      match parseExpPart rest2 with
      | none => none
      | some e =>
        let mag : ℚ := (natOfDigits intPart : ℚ)
          + (natOfDigits fracPart : ℚ) / (10 : ℚ) ^ fracPart.length
        some (.finite ((if neg then -mag else mag) * (10 : ℚ) ^ e))

/-- Embeds `SamplerOptionValue::parse_float` (`src/configure/value.rs:81-87`):
six explicit infinity literals, then Rust `f64::from_str`. -/
def parse_float (s : String) : Except ParseError FloatVal :=
  let t := strTrim s
  if t = "-inf" ∨ t = "-INF" then .ok .negInf
  else if t = "inf" ∨ t = "INF" ∨ t = "+inf" ∨ t = "+INF" then .ok .inf
  else
    match rustFloatFromStr t with
    | some v => .ok v
    | none => .error .parseFloatError

/-- Embeds `SamplerOptionValue::parse_bool` (`src/configure/value.rs:89-97`). -/
def parse_bool (s : String) : Except ParseError Bool :=
  let t := strTrim s
  if t = "true" ∨ t = "t" ∨ t = "yes" ∨ t = "1" then .ok true
  else if t = "false" ∨ t = "f" ∨ t = "no" ∨ t = "0" then .ok false
  else .error .badBoolValue

/-- Embeds `SamplerOptionValue::parse_uint` (`u64::from_str` on the trimmed
string: an optional `+`, then decimal digits, value below `2^64`). -/
def parse_uint (s : String) : Except ParseError Nat :=
  let cs := (strTrim s).data
  let body := if cs.head? = some '+' then cs.tail else cs
  if cs.head? = some '-' then .error .parseIntError
  else if body.isEmpty || body.any (fun c => !c.isDigit) then
    .error .parseIntError
  else if natOfDigits body < 2 ^ 64 then .ok (natOfDigits body)
  else .error .parseIntError

/-- Embeds `SamplerOptionValue::parse_string`: always succeeds with the
trimmed text. -/
def parse_string (s : String) : Except ParseError String := .ok (strTrim s)

/-- Embeds `SamplerOptionValue::parse_value`
(`src/configure/value.rs:67-75`). -/
def parse_value (typ : SamplerOptionType) (s : String) :
    Except ParseError SamplerOptionValue :=
  match typ with
  | .uint => (parse_uint s).map .uint
  | .float => (parse_float s).map .float
  | .bool => (parse_bool s).map .bool
  | .string => (parse_string s).map .str

theorem stripSign_no_sign (a : Char) (r : List Char)
    (h1 : a ≠ '-') (h2 : a ≠ '+') :
    stripSign (a :: r) = (false, a :: r) := by
  simp [stripSign, h1, h2]

/-- Picking apart a three-character case-insensitive `inf`. -/
theorem data_of_lower_inf (cs : List Char)
    (h : cs.map Char.toLower = ['i', 'n', 'f']) :
    ∃ a b c, cs = [a, b, c]
      ∧ a.toLower = 'i' ∧ b.toLower = 'n' ∧ c.toLower = 'f' := by
  cases cs with
  | nil => exact absurd h (by simp)
  | cons a l1 =>
    cases l1 with
    | nil => exact absurd h (by simp)
    | cons b l2 =>
      cases l2 with
      | nil => exact absurd h (by simp)
      | cons c l3 =>
        cases l3 with
        | nil =>
          simp only [List.map_cons, List.map_nil, List.cons.injEq,
            and_true] at h
          exact ⟨a, b, c, rfl, h.1, h.2.1, h.2.2⟩
        | cons d l4 => exact absurd h (by simp)

theorem toLower_i_ne_dash (a : Char) (ha : a.toLower = 'i') : a ≠ '-' := by
  intro h; subst h; exact absurd ha (by decide)

theorem toLower_i_ne_plus (a : Char) (ha : a.toLower = 'i') : a ≠ '+' := by
  intro h; subst h; exact absurd ha (by decide)

/-- `from_str` on an unsigned case-insensitive `inf`. -/
theorem rustFloatFromStr_inf (t : String)
    (h : t.data.map Char.toLower = ['i', 'n', 'f']) :
    rustFloatFromStr t = some .inf := by
  obtain ⟨a, b, c, hdata, ha, hb, hc⟩ := data_of_lower_inf t.data h
  unfold rustFloatFromStr
  rw [hdata, stripSign_no_sign a [b, c] (toLower_i_ne_dash a ha)
    (toLower_i_ne_plus a ha)]
  simp [lowerEq, ha, hb, hc]

/-- `from_str` on a signed case-insensitive `inf` (shared by both signs:
the sign has already been split off). -/
theorem rustFloatFromStr_signed_inf (t : String) (sgn : Char) (r : List Char)
    (hsgn : sgn = '-' ∨ sgn = '+')
    (hdata : t.data = sgn :: r)
    (h : r.map Char.toLower = ['i', 'n', 'f']) :
    rustFloatFromStr t = some (if sgn = '-' then .negInf else .inf) := by
  obtain ⟨a, b, c, hr, ha, hb, hc⟩ := data_of_lower_inf r h
  unfold rustFloatFromStr
  rcases hsgn with hs | hs <;>
    · subst hs
      rw [hdata, hr]
      simp [stripSign, lowerEq, ha, hb, hc]

theorem parse_float_lower_inf (s : String)
    (h : (strTrim s).data.map Char.toLower = ['i', 'n', 'f']) :
    parse_float s = .ok .inf := by
  unfold parse_float
  have hne1 : ¬(strTrim s = "-inf" ∨ strTrim s = "-INF") := by
    rintro (hh | hh) <;> (rw [hh] at h; exact absurd h (by decide))
  rw [if_neg hne1]
  by_cases h2 : strTrim s = "inf" ∨ strTrim s = "INF" ∨ strTrim s = "+inf"
      ∨ strTrim s = "+INF"
  · rw [if_pos h2]
  · rw [if_neg h2, rustFloatFromStr_inf (strTrim s) h]

theorem parse_float_lower_neg_inf (s : String) (r : List Char)
    (hdata : (strTrim s).data = '-' :: r)
    (h : r.map Char.toLower = ['i', 'n', 'f']) :
    parse_float s = .ok .negInf := by
  unfold parse_float
  by_cases h1 : strTrim s = "-inf" ∨ strTrim s = "-INF"
  · rw [if_pos h1]
  · rw [if_neg h1]
    have hne2 : ¬(strTrim s = "inf" ∨ strTrim s = "INF" ∨ strTrim s = "+inf"
        ∨ strTrim s = "+INF") := by
      rintro (hh | hh | hh | hh) <;>
        · rw [hh] at hdata
          exact absurd (show _ = some '-' from congrArg List.head? hdata)
            (by decide)
    rw [if_neg hne2,
      rustFloatFromStr_signed_inf (strTrim s) '-' r (Or.inl rfl) hdata h]
    rfl

theorem parse_float_lower_pos_inf (s : String) (r : List Char)
    (hdata : (strTrim s).data = '+' :: r)
    (h : r.map Char.toLower = ['i', 'n', 'f']) :
    parse_float s = .ok .inf := by
  unfold parse_float
  have hne1 : ¬(strTrim s = "-inf" ∨ strTrim s = "-INF") := by
    rintro (hh | hh) <;>
      · rw [hh] at hdata
        exact absurd (show _ = some '+' from congrArg List.head? hdata)
          (by decide)
  rw [if_neg hne1]
  by_cases h2 : strTrim s = "inf" ∨ strTrim s = "INF" ∨ strTrim s = "+inf"
      ∨ strTrim s = "+INF"
  · rw [if_pos h2]
  · rw [if_neg h2,
      rustFloatFromStr_signed_inf (strTrim s) '+' r (Or.inr rfl) hdata h]
    rfl

theorem parse_bool_true_iff (s : String) :
    parse_bool s = .ok true ↔
      (strTrim s = "true" ∨ strTrim s = "t" ∨ strTrim s = "yes"
        ∨ strTrim s = "1") := by
  unfold parse_bool
  by_cases h1 : strTrim s = "true" ∨ strTrim s = "t" ∨ strTrim s = "yes"
      ∨ strTrim s = "1"
  · simp [h1]
  · by_cases h2 : strTrim s = "false" ∨ strTrim s = "f" ∨ strTrim s = "no"
        ∨ strTrim s = "0"
    · simp [h1, h2]
    · simp [h1, h2]

theorem parse_bool_false_iff (s : String) :
    parse_bool s = .ok false ↔
      (strTrim s = "false" ∨ strTrim s = "f" ∨ strTrim s = "no"
        ∨ strTrim s = "0") := by
  unfold parse_bool
  by_cases h1 : strTrim s = "true" ∨ strTrim s = "t" ∨ strTrim s = "yes"
      ∨ strTrim s = "1"
  · have : ¬(strTrim s = "false" ∨ strTrim s = "f" ∨ strTrim s = "no"
        ∨ strTrim s = "0") := by
      rcases h1 with h | h | h | h <;>
        · rintro (hh | hh | hh | hh) <;> (rw [h] at hh; exact absurd hh (by decide))
    simp [h1, this]
  · by_cases h2 : strTrim s = "false" ∨ strTrim s = "f" ∨ strTrim s = "no"
        ∨ strTrim s = "0"
    · simp [h1, h2]
    · simp [h1, h2]

theorem map_bool_eq_ok (x : Except ParseError Bool) (b : Bool) :
    x.map SamplerOptionValue.bool = .ok (.bool b) ↔ x = .ok b := by
  cases x <;> simp [Except.map]

theorem map_bool_eq_error (x : Except ParseError Bool) (e : ParseError) :
    x.map SamplerOptionValue.bool = .error e ↔ x = .error e := by
  cases x <;> simp [Except.map]

/-- C6: `parse_value` on a real-kind option accepts decimal float literals
and the infinity words with any casing (in particular `"Inf"` and `"-iNf"`);
on a boolean-kind option it accepts exactly the trimmed strings
`true`, `t`, `yes`, `1` (giving `true`) and `false`, `f`, `no`, `0`
(giving `false`), case-sensitively, and fails on everything else. -/
theorem C6_parse_value :
    (∀ s : String, parse_value .bool s = .ok (.bool true) ↔
      (strTrim s = "true" ∨ strTrim s = "t" ∨ strTrim s = "yes"
        ∨ strTrim s = "1")) ∧
    (∀ s : String, parse_value .bool s = .ok (.bool false) ↔
      (strTrim s = "false" ∨ strTrim s = "f" ∨ strTrim s = "no"
        ∨ strTrim s = "0")) ∧
    (∀ s : String,
      ¬(strTrim s = "true" ∨ strTrim s = "t" ∨ strTrim s = "yes"
        ∨ strTrim s = "1") →
      ¬(strTrim s = "false" ∨ strTrim s = "f" ∨ strTrim s = "no"
        ∨ strTrim s = "0") →
      parse_value .bool s = .error .badBoolValue) ∧
    (∀ s : String, (strTrim s).data.map Char.toLower = ['i', 'n', 'f'] →
      parse_value .float s = .ok (.float .inf)) ∧
    (∀ (s : String) (r : List Char), (strTrim s).data = '+' :: r →
      r.map Char.toLower = ['i', 'n', 'f'] →
      parse_value .float s = .ok (.float .inf)) ∧
    (∀ (s : String) (r : List Char), (strTrim s).data = '-' :: r →
      r.map Char.toLower = ['i', 'n', 'f'] →
      parse_value .float s = .ok (.float .negInf)) ∧
    parse_value .float "1" = .ok (.float (.finite 1)) ∧
    parse_value .float "-1" = .ok (.float (.finite (-1))) ∧
    parse_value .float ".1" = .ok (.float (.finite (1/10))) ∧
    parse_value .float "2.5e1" = .ok (.float (.finite 25)) ∧
    parse_value .float "x1" = .error .parseFloatError := by
  refine ⟨?_, ?_, ?_, ?_, ?_, ?_, ?_, ?_, ?_, ?_, rfl⟩
  · intro s
    show (parse_bool s).map SamplerOptionValue.bool = .ok (.bool true) ↔ _
    rw [map_bool_eq_ok]
    exact parse_bool_true_iff s
  · intro s
    show (parse_bool s).map SamplerOptionValue.bool = .ok (.bool false) ↔ _
    rw [map_bool_eq_ok]
    exact parse_bool_false_iff s
  · intro s h1 h2
    show (parse_bool s).map SamplerOptionValue.bool = .error .badBoolValue
    rw [map_bool_eq_error]
    unfold parse_bool
    rw [if_neg h1, if_neg h2]
  · intro s h
    show (parse_float s).map SamplerOptionValue.float = _
    rw [parse_float_lower_inf s h]
    rfl
  · intro s r hdata h
    show (parse_float s).map SamplerOptionValue.float = _
    rw [parse_float_lower_pos_inf s r hdata h]
    rfl
  · intro s r hdata h
    show (parse_float s).map SamplerOptionValue.float = _
    rw [parse_float_lower_neg_inf s r hdata h]
    rfl
  · rw [show parse_value .float "1" = .ok (.float (.finite
        (((natOfDigits ['1'] : ℚ)
            + (natOfDigits ([] : List Char) : ℚ) / (10:ℚ) ^ (0:ℕ))
          * (10:ℚ) ^ (0:ℤ)))) from rfl,
      show natOfDigits ['1'] = 1 from by decide,
      show natOfDigits ([] : List Char) = 0 from rfl]
    norm_num
  · rw [show parse_value .float "-1" = .ok (.float (.finite
        ((-((natOfDigits ['1'] : ℚ)
            + (natOfDigits ([] : List Char) : ℚ) / (10:ℚ) ^ (0:ℕ)))
          * (10:ℚ) ^ (0:ℤ)))) from rfl,
      show natOfDigits ['1'] = 1 from by decide,
      show natOfDigits ([] : List Char) = 0 from rfl]
    norm_num
  · rw [show parse_value .float ".1" = .ok (.float (.finite
        (((natOfDigits ([] : List Char) : ℚ)
            + (natOfDigits ['1'] : ℚ) / (10:ℚ) ^ (1:ℕ))
          * (10:ℚ) ^ (0:ℤ)))) from rfl,
      show natOfDigits ['1'] = 1 from by decide,
      show natOfDigits ([] : List Char) = 0 from rfl]
    norm_num
  · rw [show parse_value .float "2.5e1" = .ok (.float (.finite
        (((natOfDigits ['2'] : ℚ) + (natOfDigits ['5'] : ℚ) / (10:ℚ) ^ (1:ℕ))
          * (10:ℚ) ^ ((natOfDigits ['1'] : ℤ))))) from rfl,
      show natOfDigits ['1'] = 1 from by decide,
      show natOfDigits ['2'] = 2 from by decide,
      show natOfDigits ['5'] = 5 from by decide]
    norm_num

/-- Witness for `C6_parse_value`: its conditional conjuncts discharged at
concrete strings (`"yes"`, `"True"` — note the capital T fails —, `"Inf"`,
`"+iNF"`, `"-iNf"`). -/
theorem C6_parse_value_witness :
    parse_value .bool "yes" = .ok (.bool true) ∧
      parse_value .bool "True" = .error .badBoolValue ∧
      parse_value .float "Inf" = .ok (.float .inf) ∧
      parse_value .float "+iNF" = .ok (.float .inf) ∧
      parse_value .float "-iNf" = .ok (.float .negInf) :=
  ⟨(C6_parse_value.1 "yes").mpr (by decide),
    C6_parse_value.2.2.1 "True" (by decide) (by decide),
    C6_parse_value.2.2.2.1 "Inf" (by decide),
    C6_parse_value.2.2.2.2.1 "+iNF" ['i', 'N', 'F'] (by decide)
      (by decide),
    C6_parse_value.2.2.2.2.2.1 "-iNf" ['i', 'N', 'f'] (by decide)
      (by decide)⟩

/-! ## Option write access (`src/configure/configurable.rs`) -/

/-- A typed mutable accessor (`SamplerOptionValueMut`): a setter bound to a
field of the sampler state `S`. -/
inductive ValueMut (S : Type) where
  | uintRef (set : S → Nat → S)
  | floatRef (set : S → ℚ → S)
  | boolRef (set : S → Bool → S)
  | stringRef (set : S → String → S)

/-- `F::from_f64` for the exact-rational embedding of the float field type:
finite values convert exactly (no claim involves writing a non-finite
option value). -/
def from_f64 : FloatVal → Option ℚ
  | .finite q => some q
  | _ => none

/-- `UI::from_u64` for `UI = usize` on a 64-bit target: always succeeds. -/
def from_u64 (n : Nat) : Option Nat := some n

/-- The `(metadata, acc.is_some())` view of an options list that
`find_option_definition` works on. -/
def toFindList {S : Type}
    (entries : List (SamplerOptionMetadata × Option (ValueMut S))) :
    List (SamplerOptionMetadata × Bool) :=
  entries.map (fun e => (e.1, e.2.isSome))

/-- Embeds `configurable_sampler::set_option`
(`src/configure/configurable.rs:86-134`): trim the key, resolve it against
`sampler_options_mut`, fail with `CannotAccessOptionValue` when the
accessor index is absent, run the `pre_set_option` hook, take the accessor,
write the converted value on a kind match (`UnknownOrBadType` otherwise),
then run the `post_set_option` hook.  (Named `setOptionImpl` because
`set_option` is a Lean keyword.) -/
def setOptionImpl {S : Type}
    (options_mut : S → List (SamplerOptionMetadata × Option (ValueMut S)))
    (pre : S → SamplerOptionMetadata → SamplerOptionValue →
      Except ConfigureSamplerError (S × SamplerOptionValue))
    (post : S → SamplerOptionMetadata → Except ConfigureSamplerError S)
    (slf : S) (key : String) (val : SamplerOptionValue) :
    Except ConfigureSamplerError S :=
  let key := strTrim key
  match find_option_definition (toFindList (options_mut slf)) key with
  | .error e => .error e
  | .ok (omd, optidx) =>
    match optidx with
    | none => .error (.cannotAccessOptionValue key)
    | some idx =>
      match pre slf omd val with
      | .error e => .error e
      | .ok (slf, val) =>
        match ((options_mut slf).get? idx).bind (fun e => e.2) with
        | none => .error (.cannotAccessOptionValue key)
        | some acc =>
          match acc, val with
          | .floatRef set, .float v =>
            match from_f64 v with
            | some q => post (set slf q) omd
            | none => .error (.conversionFailure key)
          | .uintRef set, .uint n =>
            match from_u64 n with
            | some m => post (set slf m) omd
            | none => .error (.conversionFailure key)
          | .boolRef set, .bool b => post (set slf b) omd
          | .stringRef set, .str v => post (set slf v) omd
          | _, _ => .error (.unknownOrBadType key)

/-- The default (no-op) `pre_set_option` hook. -/
def preNoop {S : Type} : S → SamplerOptionMetadata → SamplerOptionValue →
    Except ConfigureSamplerError (S × SamplerOptionValue) :=
  fun s _ v => .ok (s, v)

/-! ## Mirostat samplers (`src/samplers/mirostat.rs`): option state -/

/-- Embeds the `SampleRandDistrib` state: its last picked token. -/
structure SampleRandDistrib where
  token_id : Option Int
deriving Repr, DecidableEq

/-- Embeds the `SampleMirostat1` state. -/
structure SampleMirostat1 where
  n_vocab : Nat
  m : Nat
  tau : ℚ
  eta : ℚ
  mu : ℚ
  token : Option Int
  rd_sampler : SampleRandDistrib
deriving Repr, DecidableEq

/-- Embeds the `SampleMirostat2` state. -/
structure SampleMirostat2 where
  tau : ℚ
  eta : ℚ
  mu : ℚ
  token : Option Int
  rd_sampler : SampleRandDistrib
deriving Repr, DecidableEq

/-- `SampleMirostat1::sampler_options_mut`
(`src/samplers/mirostat.rs:220-233`): tau, eta, mu, m, n_vocab, each with
its field accessor. -/
def mirostat1OptionsMut (_ : SampleMirostat1) :
    List (SamplerOptionMetadata × Option (ValueMut SampleMirostat1)) :=
  [(⟨"tau", none, .float⟩, some (.floatRef (fun s v => { s with tau := v }))),
   (⟨"eta", none, .float⟩, some (.floatRef (fun s v => { s with eta := v }))),
   (⟨"mu", none, .float⟩, some (.floatRef (fun s v => { s with mu := v }))),
   (⟨"m", none, .uint⟩, some (.uintRef (fun s v => { s with m := v }))),
   (⟨"n_vocab", none, .uint⟩,
     some (.uintRef (fun s v => { s with n_vocab := v })))]

/-- `SampleMirostat2::sampler_options_mut`
(`src/samplers/mirostat.rs:402-413`): tau, eta, mu. -/
def mirostat2OptionsMut (_ : SampleMirostat2) :
    List (SamplerOptionMetadata × Option (ValueMut SampleMirostat2)) :=
  [(⟨"tau", none, .float⟩, some (.floatRef (fun s v => { s with tau := v }))),
   (⟨"eta", none, .float⟩, some (.floatRef (fun s v => { s with eta := v }))),
   (⟨"mu", none, .float⟩, some (.floatRef (fun s v => { s with mu := v })))]

/-- Sanity: the option list used for C4 is the metadata view of
`mirostat1OptionsMut`. -/
theorem mirostat1Options_eq_toFindList (s : SampleMirostat1) :
    toFindList (mirostat1OptionsMut s) = mirostat1Options := rfl

/-- Embeds `SampleMirostat1::post_set_option`
(`src/samplers/mirostat.rs:175-180`): after `tau` is set,
`mu = tau * (1 + 1)`. -/
def mirostat1PostSet (s : SampleMirostat1) (md : SamplerOptionMetadata) :
    Except ConfigureSamplerError SampleMirostat1 :=
  .ok (if md.key = "tau" then { s with mu := s.tau * (1 + 1) } else s)

/-- Embeds `SampleMirostat2::post_set_option`
(`src/samplers/mirostat.rs:367-372`). -/
def mirostat2PostSet (s : SampleMirostat2) (md : SamplerOptionMetadata) :
    Except ConfigureSamplerError SampleMirostat2 :=
  .ok (if md.key = "tau" then { s with mu := s.tau * (1 + 1) } else s)

/-- `ConfigurableSampler::set_option` for `SampleMirostat1` (default pre
hook, its own post hook). -/
def m1_set_option (st : SampleMirostat1) (key : String)
    (val : SamplerOptionValue) : Except ConfigureSamplerError SampleMirostat1 :=
  setOptionImpl mirostat1OptionsMut preNoop mirostat1PostSet st key val

/-- `ConfigurableSampler::set_option` for `SampleMirostat2`. -/
def m2_set_option (st : SampleMirostat2) (key : String)
    (val : SamplerOptionValue) : Except ConfigureSamplerError SampleMirostat2 :=
  setOptionImpl mirostat2OptionsMut preNoop mirostat2PostSet st key val

/-- C8: for both mirostat samplers, setting `tau` through `set_option`
succeeds and — via the after-set hook — also resets `mu` to `2·tau`,
leaving every other field unchanged (the record-update form on the right is
exactly that frame); setting `mu` changes only `mu` (in particular not
`tau`); and setting `tau` then `mu` leaves `mu` at the later value. -/
theorem C8_tau_mu_hooks :
    (∀ (st : SampleMirostat1) (q w : ℚ),
      m1_set_option st "tau" (.float (.finite q))
          = .ok { st with tau := q, mu := 2 * q } ∧
      m1_set_option st "mu" (.float (.finite w))
          = .ok { st with mu := w } ∧
      (m1_set_option st "tau" (.float (.finite q))).bind
          (fun st' => m1_set_option st' "mu" (.float (.finite w)))
        = .ok { st with tau := q, mu := w }) ∧
    (∀ (st : SampleMirostat2) (q w : ℚ),
      m2_set_option st "tau" (.float (.finite q))
          = .ok { st with tau := q, mu := 2 * q } ∧
      m2_set_option st "mu" (.float (.finite w))
          = .ok { st with mu := w } ∧
      (m2_set_option st "tau" (.float (.finite q))).bind
          (fun st' => m2_set_option st' "mu" (.float (.finite w)))
        = .ok { st with tau := q, mu := w }) := by
  constructor
  · intro st q w
    refine ⟨?_, rfl, rfl⟩
    rw [show m1_set_option st "tau" (.float (.finite q))
        = .ok { st with tau := q, mu := q * (1 + 1) } from rfl,
      show q * (1 + 1) = 2 * q from by ring]
  · intro st q w
    refine ⟨?_, rfl, rfl⟩
    rw [show m2_set_option st "tau" (.float (.finite q))
        = .ok { st with tau := q, mu := q * (1 + 1) } from rfl,
      show q * (1 + 1) = 2 * q from by ring]

/-! ## Sequence repetition (`src/samplers/sequence_repetition.rs`) -/

/-- Embeds `SeqMatchResult` (the borrowed slice becomes an owned list). -/
structure SeqMatchResult where
  h_offs : Nat
  h_len : Nat
  n_len : Nat
  seq : List Int
deriving Repr, DecidableEq

/-- Outcome of the inner `while window > 0` loop of `fuzzy_match`:
a hay item equal to the wanted needle item was found at `hidx` (the shared
hay iterator then stands at `pos`), or the window was exhausted, or the hay
iterator ran out (`break 'outer`). -/
inductive FuzzyInner where
  | matched (hidx pos : Nat)
  | windowOut (pos : Nat)
  | hayOut
deriving Repr, DecidableEq

/-- The inner loop of `fuzzy_match`
(`src/samplers/sequence_repetition.rs:178-190`): each iteration decrements
the window and consumes one hay item. -/
def fuzzyInner (hay : List Int) (n : Int) : Nat → Nat → FuzzyInner
  | pos, 0 => .windowOut pos
  | pos, window + 1 =>
    match hay.get? pos with
    | none => .hayOut
    | some h =>
      if h = n then .matched pos (pos + 1) else fuzzyInner hay n (pos + 1) window

/-- The outer loop of `fuzzy_match`
(`src/samplers/sequence_repetition.rs:177-196`) over the enumerated needle:
a match re-arms the one-step window and records `(hidx+1, nidx+1)` when the
whole-needle threshold `min_len` is reached; a window exhaustion consumes
one unit of tolerance and widens the window to `merge_limit + 1` for the
*next* needle element (zero tolerance stops the walk); hay exhaustion stops
everything. -/
def fuzzyOuter (hay : List Int) (min_len merge_limit : Nat) :
    List (Nat × Int) → Nat → Nat → Nat → List (Nat × Nat) → List (Nat × Nat)
  | [], _pos, _window, _tol, acc => acc
  | (nidx, n) :: rest, pos, window, tol, acc =>
    match fuzzyInner hay n pos window with
    | .hayOut => acc
    | .matched hidx pos' =>
      fuzzyOuter hay min_len merge_limit rest pos' 1 tol
        (if min_len ≤ nidx + 1 then acc ++ [(hidx + 1, nidx + 1)] else acc)
    | .windowOut pos' =>
      if tol = 0 then acc
      else fuzzyOuter hay min_len merge_limit rest pos' (merge_limit + 1)
        (tol - 1) acc

/-- Embeds `fuzzy_match` (`src/samplers/sequence_repetition.rs:166-199`). -/
def fuzzy_match (hay needle : List Int) (min_len tolerance merge_limit : Nat) :
    List (Nat × Nat) :=
  fuzzyOuter hay min_len merge_limit needle.enum 0 1 tolerance []

/-- The inner `while seqlen >= nlen + min_len` loop of `find_seqs`
(`src/samplers/sequence_repetition.rs:139-160`): needles are ever-longer
terminal slices of `seq`; only runs where `hay[0] == needle[0]` are
searched; a recorded match must match the entire needle
(`fuzzy_match` is called with `min_len = needle.len()`) and the kept ones
must be proper (`hay.len() > needle.len() && hay.len() > hidx + 1`).
The source indexes `hay[0]`/`needle[0]` only in states where both are
non-empty (`min_length ≥ 2` in the sampler); the embedding returns no match
when either is empty. -/
def needleLoop (seq : List Int) (min_len tol mm : Nat) (hay : List Int) :
    Nat → Nat → List SeqMatchResult
  | _nlen, 0 => []
  | nlen, gas + 1 =>
    if seq.length < nlen + min_len then []
    else
      let needle := seq.drop (seq.length - nlen)
      let here :=
        match hay.head?, needle.head? with
        | some a, some b =>
          if a = b then
            ((fuzzy_match hay needle needle.length tol mm).filter
              (fun p => decide (needle.length < hay.length)
                && decide (p.1 + 1 < hay.length))).map
              (fun p => ⟨seq.length - hay.length, p.1 + 1, p.2,
                hay.take (p.1 + 1)⟩)
          else []
        | _, _ => []
      here ++
        (if hay.length ≤ nlen + 1 then []
         else needleLoop seq min_len tol mm hay (nlen + 1) gas)

/-- The outer `while hay.len() > min_len` loop of `find_seqs`: the hay
shrinks from the front.  The `gas` argument of `needleLoop` makes the inner
`nlen` loop structurally recursive: it starts at `hay.length` and the loop
breaks (`nlen >= hay.len()`) before the fuel can reach zero, so it never
changes the result. -/
def hayLoop (seq : List Int) (min_len tol mm : Nat) :
    List Int → List SeqMatchResult
  | [] => []
  | a :: rest =>
    if (a :: rest).length ≤ min_len then []
    else needleLoop seq min_len tol mm (a :: rest) min_len (a :: rest).length
      ++ hayLoop seq min_len tol mm rest

/-- Embeds `find_seqs` (`src/samplers/sequence_repetition.rs:121-164`). -/
def find_seqs (seq : List Int) (min_len tol mm : Nat) : List SeqMatchResult :=
  if seq.length < min_len * 2 then [] else hayLoop seq min_len tol mm seq

/-- Embeds the fields of `SampleSeqRepetition`. -/
structure SampleSeqRepetition where
  flat_penalty : ℚ
  stacking_penalty : ℚ
  tolerance : Nat
  max_merge : Nat
  min_length : Nat
  last_n : Nat
deriving Repr, DecidableEq

/-- The `penalize` HashMap's `entry(..).and_modify(max).or_insert(..)`
update, on an association list. -/
def upsertMax : List (Int × Nat) → Int → Nat → List (Int × Nat)
  | [], k, v => [(k, v)]
  | (k', v') :: rest, k, v =>
    if k' = k then (k', max v' v) :: rest else (k', v') :: upsertMax rest k v

/-- The `penalize` map built inside `with_last_tokens`
(`src/samplers/sequence_repetition.rs:225-245`): early return when the
history is shorter than `2·min_length`, else window the history and record,
for the last token of every non-empty match, the maximal match length.
(The HashMap's iteration order is immaterial: each distinct token id is
updated once by the application loop, so the final buffer is the same; the
embedding keeps first-insertion order.) -/
def seqRepPenalize (s : SampleSeqRepetition) (lastTokens : List Int) :
    List (Int × Nat) :=
  if lastTokens.length < s.min_length * 2 then []
  else
    let tokens := lastWindow s.last_n lastTokens
    ((find_seqs tokens s.min_length s.tolerance s.max_merge).filter
      (fun mi => !mi.seq.isEmpty)).foldl
      (fun acc mi => upsertMax acc (mi.seq.getLastD 0) mi.seq.length) []

/-- The application loop of `SampleSeqRepetition::sample`
(`src/samplers/sequence_repetition.rs:247-268`): convert each penalized
token id, bounds-check it against the buffer, and subtract
`seqlen·stacking_penalty + (seqlen > 0 ? 1 : 0)·flat_penalty`. -/
def applyPenalties (flat stack : ℚ) :
    List (Int × Nat) → Logits → Except SamplerError Logits
  | [], lg => .ok lg
  | (tid, slen) :: rest, lg =>
    match intToUsize tid with
    | none => .error (.internalError "TID conversion failed")
    | some t =>
      if lg.logits.length ≤ t then
        .error (.internalError "TID out of range for logits")
      else
        applyPenalties flat stack rest
          { lg with logits := modifyIdx lg.logits t (fun l =>
              { l with logit := l.logit -
                  ((slen : ℚ) * stack
                    + (if (0 : ℚ) < (slen : ℚ) then 1 else 0) * flat) }) }

/-- Embeds `SampleSeqRepetition::sample`
(`src/samplers/sequence_repetition.rs:202-271`); the token-history resource
is passed as `lastTokens`.  Note the sorted flag is *not* cleared. -/
def seqRepSample (s : SampleSeqRepetition) (lastTokens : List Int)
    (lg : Logits) : Except SamplerError Logits :=
  if lg.logits.isEmpty
      || (decide (s.flat_penalty = 0) && decide (s.stacking_penalty = 0))
      || decide (s.min_length < 2) || decide (s.last_n < s.min_length) then
    .ok lg
  else
    applyPenalties s.flat_penalty s.stacking_penalty
      (seqRepPenalize s lastTokens) lg

theorem lastWindow_all (n : Nat) (ts : List Int) (h : ts.length ≤ n) :
    lastWindow n ts = ts := by
  unfold lastWindow
  by_cases hgt : n > ts.length
  · simp [hgt]
  · have h0 : ts.length - n = 0 := by omega
    simp [hgt, h0]

/-- Shared evaluation lemma for C3: when the penalize map is exactly
`{4 ↦ 4}`, the sampler (with `stacking_penalty = 0`, `min_length = 3`)
subtracts `flat` from the logit at position 4 and nothing else. -/
theorem seqRep_single4 (flat : ℚ) (hflat : flat ≠ 0) (tol mm last_n : Nat)
    (hln : 3 ≤ last_n) (hist : List Int) (lg : Logits)
    (hlen : 4 < lg.logits.length)
    (hpen : seqRepPenalize ⟨flat, 0, tol, mm, 3, last_n⟩ hist = [(4, 4)]) :
    seqRepSample ⟨flat, 0, tol, mm, 3, last_n⟩ hist lg
      = .ok { lg with
          logits := modifyIdx lg.logits 4
            (fun l => { l with logit := l.logit - flat }) } := by
  rw [show seqRepSample ⟨flat, 0, tol, mm, 3, last_n⟩ hist lg
      = if (lg.logits.isEmpty
            || (decide (flat = 0) && decide ((0:ℚ) = 0))
            || decide ((3:ℕ) < 2) || decide (last_n < 3)) = true
        then .ok lg
        else applyPenalties flat 0
          (seqRepPenalize ⟨flat, 0, tol, mm, 3, last_n⟩ hist) lg from rfl]
  have h1 : lg.logits.isEmpty = false := by
    cases hl : lg.logits with
    | nil => rw [hl] at hlen; simp at hlen
    | cons a as => rfl
  rw [h1, decide_eq_false hflat,
    decide_eq_false (show ¬ (last_n < 3) from by omega)]
  simp only [Bool.false_or, Bool.false_and, Bool.or_false, if_neg,
    Bool.false_eq_true, not_false_eq_true]
  rw [hpen]
  rw [show applyPenalties flat 0 [((4 : Int), 4)] lg
      = if lg.logits.length ≤ 4 then
          .error (.internalError "TID out of range for logits")
        else applyPenalties flat 0 []
          { lg with logits := modifyIdx lg.logits 4 (fun l =>
              { l with logit := l.logit -
                  (((4:ℕ) : ℚ) * 0
                    + (if (0:ℚ) < ((4:ℕ) : ℚ) then 1 else 0) * flat) }) }
      from rfl]
  rw [if_neg (show ¬ (lg.logits.length ≤ 4) from by omega)]
  have hE : ((4:ℕ) : ℚ) * 0 + (if (0:ℚ) < ((4:ℕ) : ℚ) then 1 else 0) * flat
      = flat := by
    rw [if_pos (by norm_num)]
    ring
  simp only [hE]
  rfl

theorem penC3a (flat : ℚ) (last_n : Nat) (hln : 7 ≤ last_n) :
    seqRepPenalize ⟨flat, 0, 0, 1, 3, last_n⟩ [1, 2, 3, 4, 1, 2, 3]
      = [(4, 4)] := by
  unfold seqRepPenalize
  rw [if_neg (by simp)]
  simp only
  rw [lastWindow_all last_n [1, 2, 3, 4, 1, 2, 3] (by simp; omega)]
  rfl

theorem penC3b (flat : ℚ) (last_n : Nat) (hln : 7 ≤ last_n) :
    seqRepPenalize ⟨flat, 0, 1, 1, 3, last_n⟩ [1, 8, 3, 4, 1, 2, 3]
      = [(4, 4)] := by
  unfold seqRepPenalize
  rw [if_neg (by simp)]
  simp only
  rw [lastWindow_all last_n [1, 8, 3, 4, 1, 2, 3] (by simp; omega)]
  rfl

/-- C3: with `min_length = 3`, `flat_penalty > 0`, `stacking_penalty = 0`,
default `max_merge = 1` and any `last_n ≥ 7`: on history `[1,2,3,4,1,2,3]`
(with `tolerance = 0`) the sampler decreases the logit at position 4 by
exactly `flat_penalty` and leaves every other entry and the sorted flag
unchanged; and on history `[1,8,3,4,1,2,3]` with `tolerance = 1` the logit
at position 4 is still decreased (the `8` is tolerated against the `2`). -/
theorem C3_seq_repetition (flat : ℚ) (hflat : 0 < flat) (last_n : Nat)
    (hln : 7 ≤ last_n) (lg : Logits) (hlen : 4 < lg.logits.length) :
    (∃ out, seqRepSample ⟨flat, 0, 0, 1, 3, last_n⟩ [1, 2, 3, 4, 1, 2, 3] lg
        = .ok out ∧
      out.sorted = lg.sorted ∧
      (∀ i, i ≠ 4 → out.logits.get? i = lg.logits.get? i) ∧
      ∃ old, lg.logits.get? 4 = some old ∧
        out.logits.get? 4 = some { old with logit := old.logit - flat } ∧
        old.logit - flat < old.logit) ∧
    (∃ out, seqRepSample ⟨flat, 0, 1, 1, 3, last_n⟩ [1, 8, 3, 4, 1, 2, 3] lg
        = .ok out ∧
      ∃ old, lg.logits.get? 4 = some old ∧
        out.logits.get? 4 = some { old with logit := old.logit - flat } ∧
        old.logit - flat < old.logit) := by
  have hflat' : flat ≠ 0 := ne_of_gt hflat
  have hold : lg.logits.get? 4 = some (lg.logits.get ⟨4, hlen⟩) :=
    List.get?_eq_get hlen
  constructor
  · refine ⟨{ lg with
        logits := modifyIdx lg.logits 4
          (fun l => { l with logit := l.logit - flat }) },
      seqRep_single4 flat hflat' 0 1 last_n (by omega)
        [1, 2, 3, 4, 1, 2, 3] lg hlen (penC3a flat last_n hln), rfl, ?_, ?_⟩
    · intro i hi
      show (modifyIdx lg.logits 4
          (fun l => { l with logit := l.logit - flat })).get? i
        = lg.logits.get? i
      rw [get?_modifyIdx, if_neg (fun h => hi h.symm)]
    · refine ⟨lg.logits.get ⟨4, hlen⟩, hold, ?_, by linarith⟩
      show (modifyIdx lg.logits 4
          (fun l => { l with logit := l.logit - flat })).get? 4
        = some { lg.logits.get ⟨4, hlen⟩ with
            logit := (lg.logits.get ⟨4, hlen⟩).logit - flat }
      rw [get?_modifyIdx, if_pos rfl, hold]
      rfl
  · refine ⟨{ lg with
        logits := modifyIdx lg.logits 4
          (fun l => { l with logit := l.logit - flat }) },
      seqRep_single4 flat hflat' 1 1 last_n (by omega)
        [1, 8, 3, 4, 1, 2, 3] lg hlen (penC3b flat last_n hln), ?_⟩
    refine ⟨lg.logits.get ⟨4, hlen⟩, hold, ?_, by linarith⟩
    show (modifyIdx lg.logits 4
        (fun l => { l with logit := l.logit - flat })).get? 4
      = some { lg.logits.get ⟨4, hlen⟩ with
          logit := (lg.logits.get ⟨4, hlen⟩).logit - flat }
    rw [get?_modifyIdx, if_pos rfl, hold]
    rfl

/-- A five-entry buffer for the C3 witness. -/
def lgC3 : Logits :=
  { sorted := false,
    logits := [⟨0, 5, 0⟩, ⟨1, 5, 0⟩, ⟨2, 5, 0⟩, ⟨3, 5, 0⟩, ⟨4, 5, 0⟩] }

/-- Witness for `C3_seq_repetition` at `flat = 1`, `last_n = 7` and a
concrete five-entry buffer. -/
theorem C3_seq_repetition_witness :
    (∃ out, seqRepSample ⟨1, 0, 0, 1, 3, 7⟩ [1, 2, 3, 4, 1, 2, 3] lgC3
        = .ok out ∧
      out.sorted = lgC3.sorted ∧
      (∀ i, i ≠ 4 → out.logits.get? i = lgC3.logits.get? i) ∧
      ∃ old, lgC3.logits.get? 4 = some old ∧
        out.logits.get? 4 = some { old with logit := old.logit - 1 } ∧
        old.logit - 1 < old.logit) ∧
    (∃ out, seqRepSample ⟨1, 0, 1, 1, 3, 7⟩ [1, 8, 3, 4, 1, 2, 3] lgC3
        = .ok out ∧
      ∃ old, lgC3.logits.get? 4 = some old ∧
        out.logits.get? 4 = some { old with logit := old.logit - 1 } ∧
        old.logit - 1 < old.logit) :=
  C3_seq_repetition 1 (by norm_num) 7 (by norm_num) lgC3 (by decide)

/-! ## Sorting and softmax (`src/types.rs`) -/

/-- The comparator of `ensure_sorted`
(`b.logit.partial_cmp(&a.logit)`, i.e. descending by logit); it is total on
the exact-rational embedding, so the "Impossible: logit comparison failed?"
error path cannot fire. -/
def logitGe (a b : Logit) : Bool := decide (b.logit ≤ a.logit)

/-- Embeds `Logits::ensure_sorted` (`src/types.rs:148-165`): stable
descending sort by logit (Rust `sort_by` is stable, as is `mergeSort`),
then set the sorted flag; already-sorted buffers are returned as they are. -/
def Logits.ensure_sorted (lg : Logits) : Logits :=
  if lg.sorted then lg
  else { sorted := true, logits := lg.logits.mergeSort logitGe }

/-- Embeds `Logits::softmax` (`src/types.rs:168-181`), with the
exponential as a parameter `expf` (an arbitrary realisation of
`Float::exp`): no-op on empty input; ensure sorted; subtract the first
(maximal) logit; exponentiate into `prob`; normalise by the sum.  (The
source computes the probabilities and their sum in one fold and then
divides in place; the two `map`s and the `sum` here are the same
computation.) -/
def Logits.softmax (expf : ℚ → ℚ) (lg : Logits) : Logits :=
  if lg.logits.isEmpty then lg
  else
    let sorted := lg.ensure_sorted
    let max_l := (sorted.logits.headD default).logit
    let ps := sorted.logits.map
      (fun l => { l with prob := expf (l.logit - max_l) })
    let cum_sum := (ps.map (fun l => l.prob)).sum
    { sorted with logits := ps.map (fun l => { l with prob := l.prob / cum_sum }) }

/-! ## Random-distribution selector (`src/samplers/rand_distrib.rs`) -/

/-- Modelled from the `rand` crate (external collaborator per the spec's
resource boundary): `WeightedIndex::new` fails when there are no weights, a
weight is invalid, or the total weight is zero. -/
def weightedIndexNew (ws : List ℚ) : Except SamplerError (List ℚ) :=
  if ws.isEmpty then .error .randWeightedError
  else if ws.any (fun w => decide (w < 0)) then .error .randWeightedError
  else if ws.sum = 0 then .error .randWeightedError
  else .ok ws

/-- Modelled from the `rand` crate: drawing from a `WeightedIndex` with a
uniform value `x ∈ [0, total)` yields the least index whose cumulative
weight exceeds `x`. -/
def weightedIndexSample (ws : List ℚ) (x : ℚ) : Nat :=
  match ws with
  | [] => 0
  | w :: rest => if x < w then 0 else 1 + weightedIndexSample rest (x - w)

/-- The RNG side of `SimpleSamplerResources`: an abstract stream of uniform
draws (each in `[0, 1)`; after softmax the weights sum to 1) and the count
of draws consumed so far.  `hasRng = false` models resources without an
RNG, whose `with_rng_mut` fails with `MissingResource("rng")`. -/
structure Resources where
  hasRng : Bool
  rngStream : Nat → ℚ
  rngCount : Nat

/-- Embeds `SampleRandDistrib::sample` (`src/samplers/rand_distrib.rs:36-56`):
clear the token; no-op on an empty buffer; softmax; build the weighted
distribution from the probabilities; draw once through the RNG resource;
record the picked entry's token id.  (The incoming selector state is
irrelevant: the method overwrites `token_id` first.) -/
def randDistribSample (expf : ℚ → ℚ) (_rd : SampleRandDistrib)
    (res : Resources) (lg : Logits) :
    Except SamplerError (SampleRandDistrib × Resources × Logits) :=
  if lg.logits.isEmpty then .ok (⟨none⟩, res, lg)
  else
    let lg := lg.softmax expf
    match weightedIndexNew (lg.logits.map (fun l => l.prob)) with
    | .error e => .error e
    | .ok ws =>
      if res.hasRng then
        let x := res.rngStream res.rngCount
        let idx := weightedIndexSample ws x
        .ok (⟨some ((lg.logits.getD idx default).token_id)⟩,
          { res with rngCount := res.rngCount + 1 }, lg)
      else .error (.missingResource "rng")

/-! ## Top-K (`src/samplers/top_k.rs`) -/

/-- Embeds the fields of `SampleTopK`. -/
structure SampleTopK where
  k : Nat
  min_keep : Nat
deriving Repr, DecidableEq

/-- The dynamic resource table seen by `SampleTopK::sample`: the optional
`"logits"` resource (`SimpleSamplerResources.logits`).
`NilSamplerResources` — which the crate's own `test_top_k` passes — has no
such resource, and its default `get_resource_mut` fails with
`MissingResource("dyn_mut(\"logits\")")`. -/
structure TopKResources where
  logitsRes : Option Logits
deriving Repr, DecidableEq

/-- `NilSamplerResources`: no dynamic resources at all. -/
def nilTopKResources : TopKResources := ⟨none⟩

/-- Embeds `SampleTopK::sample` as it stands in the source
(`src/samplers/top_k.rs:41-60`): it fetches the **`"logits"` resource**
(failing when absent), computes `k' = clamp(k, min_keep, resource length)`,
sorts and truncates *that resource buffer*, and returns the logits buffer
that was passed in (`logits2`) **unchanged**.  The two debug `println!`
calls have no semantic effect and are omitted. -/
def topKSample (s : SampleTopK) (res : TopKResources) (lg2 : Logits) :
    Except SamplerError (TopKResources × Logits) :=
  match res.logitsRes with
  | none => .error (.missingResource "dyn_mut(\"logits\")")
  | some rlg =>
    let k := min (max s.k s.min_keep) rlg.logits.length
    let sorted := rlg.ensure_sorted
    .ok (⟨some { sorted with logits := sorted.logits.take k }⟩, lg2)

/-- The logits of the crate's own `test_top_k` (`T1 = [0.1,0.2,0.3,0.4]`,
up to the logarithmic rescaling, which is irrelevant here). -/
def lgT1 : Logits :=
  { sorted := false,
    logits := [⟨0, 1, 0⟩, ⟨1, 2, 0⟩, ⟨2, 3, 0⟩, ⟨3, 4, 0⟩] }

/-- A two-entry, already-sorted buffer installed as the `"logits"`
resource. -/
def lgT2 : Logits :=
  { sorted := true, logits := [⟨0, 3, 0⟩, ⟨1, 2, 0⟩] }

/-- C7 (code bug evaluation): `SampleTopK::sample` does not transform the
buffer passed to it.  Replaying the crate's own `test_top_k`
(`SampleTopK::new(1, 0)` with `NilSamplerResources`) fails with
`MissingResource("dyn_mut(\"logits\")")` instead of returning the truncated
buffer; and even with a `"logits"` resource installed, the call truncates
the *resource* and returns the passed buffer `lgT1` untouched. -/
theorem C7_code_eval :
    topKSample ⟨1, 0⟩ nilTopKResources lgT1
        = .error (.missingResource "dyn_mut(\"logits\")") ∧
      topKSample ⟨1, 0⟩ ⟨some lgT2⟩ lgT1
        = .ok (⟨some { sorted := true, logits := [⟨0, 3, 0⟩] }⟩, lgT1) :=
  ⟨rfl, rfl⟩

/-! ## Mirostat v2 `sample` (`src/samplers/mirostat.rs:320-362`) -/

/-- Embeds `SampleMirostat2::sample`, with `Float::exp` and `Float::log2`
as parameters: clear the token; no-op on empty input; softmax; truncate to
the sorted prefix whose surprise `-log2(prob)` does not exceed `mu`
(length at least 1); softmax again; then run the embedded
random-distribution selector **twice** — once via `rd_sampler.sample(...)`
and once more inside `rd_sampler.sample_token(...)` — and compute the
reported token and the `mu` update from the second pick. -/
def mirostat2Sample (expf log2f : ℚ → ℚ) (s : SampleMirostat2)
    (res : Resources) (lg : Logits) :
    Except SamplerError (SampleMirostat2 × Resources × Logits) :=
  if lg.logits.isEmpty then .ok ({ s with token := none }, res, lg)
  else
    let lg := lg.softmax expf
    let new_size :=
      max ((lg.logits.findIdx?
        (fun l => decide (s.mu < -(log2f l.prob)))).getD 0) 1
    let lg := { lg with logits := lg.logits.take new_size }
    let lg := lg.softmax expf
    match randDistribSample expf s.rd_sampler res lg with
    | .error e => .error e
    | .ok (rd1, res1, lg1) =>
      match randDistribSample expf rd1 res1 lg1 with
      | .error e => .error e
      | .ok (rd2, res2, lg2) =>
        match rd2.token_id with
        | none => .ok ({ s with token := none, rd_sampler := rd2 }, res2, lg2)
        | some tid =>
          match lg2.logits.find? (fun l => decide (l.token_id = tid)) with
          | none =>
            .error (.internalError "Impossible: sample token not in logits?")
          | some lgt =>
            .ok ({ s with
                rd_sampler := rd2,
                mu := s.mu - (s.eta * (-(log2f lgt.prob) - s.tau)),
                token := some tid },
              res2, lg2)

theorem isEmpty_false_of_ne {α : Type} {l : List α} (h : l ≠ []) :
    l.isEmpty = false := by
  cases l with
  | nil => exact absurd rfl h
  | cons a as => rfl

theorem length_ensure_sorted (lg : Logits) :
    lg.ensure_sorted.logits.length = lg.logits.length := by
  unfold Logits.ensure_sorted
  by_cases h : lg.sorted
  · simp [h]
  · simp [h, List.length_mergeSort]

theorem length_softmax (expf : ℚ → ℚ) (lg : Logits) :
    (lg.softmax expf).logits.length = lg.logits.length := by
  unfold Logits.softmax
  by_cases h : lg.logits.isEmpty
  · simp [h]
  · simp [h, length_ensure_sorted]

theorem ensure_sorted_ne (lg : Logits) (hne : lg.logits ≠ []) :
    lg.ensure_sorted.logits ≠ [] := by
  intro h
  apply hne
  have := congrArg List.length h
  rw [length_ensure_sorted] at this
  exact List.length_eq_zero.mp (by simpa using this)

theorem softmax_ne (expf : ℚ → ℚ) (lg : Logits) (hne : lg.logits ≠ []) :
    (lg.softmax expf).logits ≠ [] := by
  intro h
  apply hne
  have := congrArg List.length h
  rw [length_softmax] at this
  exact List.length_eq_zero.mp (by simpa using this)

theorem softmax_prob_pos (expf : ℚ → ℚ) (hexp : ∀ x, 0 < expf x)
    (lg : Logits) (hne : lg.logits ≠ []) :
    ∀ l ∈ (lg.softmax expf).logits, 0 < l.prob := by
  have hE := isEmpty_false_of_ne hne
  intro l hl
  unfold Logits.softmax at hl
  rw [hE] at hl
  simp only [Bool.false_eq_true, if_false] at hl
  obtain ⟨l1, hl1, rfl⟩ := List.mem_map.mp hl
  obtain ⟨l0, hl0, rfl⟩ := List.mem_map.mp hl1
  apply div_pos (hexp _)
  apply List.sum_pos
  · intro p hp
    obtain ⟨l2, hl2, rfl⟩ := List.mem_map.mp hp
    obtain ⟨l3, hl3, rfl⟩ := List.mem_map.mp hl2
    exact hexp _
  · intro h
    simp only [List.map_eq_nil_iff] at h
    exact ensure_sorted_ne lg hne h

theorem map_div_sum (l : List ℚ) (c : ℚ) :
    (l.map (fun x => x / c)).sum = l.sum / c := by
  induction l with
  | nil => simp
  | cons a as ih => simp [ih, add_div]

theorem normalize_sum_one (E : List ℚ) (hpos : ∀ x ∈ E, 0 < x)
    (hne : E ≠ []) : (E.map (fun x => x / E.sum)).sum = 1 := by
  rw [map_div_sum, div_self (ne_of_gt (List.sum_pos E hpos hne))]

theorem probs_of_normalized (ps : List Logit) (c : ℚ) :
    List.map (fun l => l.prob)
        (List.map (fun l => { l with prob := l.prob / c }) ps)
      = (List.map (fun l => l.prob) ps).map (fun x => x / c) := by
  induction ps with
  | nil => rfl
  | cons a as ih => simp only [List.map_cons, ih]

theorem softmax_probs_sum_one (expf : ℚ → ℚ) (hexp : ∀ x, 0 < expf x)
    (lg : Logits) (hne : lg.logits ≠ []) :
    ((lg.softmax expf).logits.map (fun l => l.prob)).sum = 1 := by
  have hE := isEmpty_false_of_ne hne
  unfold Logits.softmax
  rw [hE]
  simp only [Bool.false_eq_true, if_false]
  rw [probs_of_normalized]
  apply normalize_sum_one
  · intro p hp
    obtain ⟨l2, hl2, rfl⟩ := List.mem_map.mp hp
    obtain ⟨l3, hl3, rfl⟩ := List.mem_map.mp hl2
    exact hexp _
  · intro h
    simp only [List.map_eq_nil_iff] at h
    exact ensure_sorted_ne lg hne h

theorem weightedIndexSample_lt (ws : List ℚ) :
    ∀ x : ℚ, 0 ≤ x → x < ws.sum →
      weightedIndexSample ws x < ws.length := by
  induction ws with
  | nil =>
    intro x h0 hx
    rw [List.sum_nil] at hx
    exact absurd (lt_of_le_of_lt h0 hx) (lt_irrefl 0)
  | cons w rest ih =>
    intro x h0 hx
    rw [List.sum_cons] at hx
    unfold weightedIndexSample
    by_cases hlt : x < w
    · simp [hlt]
    · rw [if_neg hlt]
      have hxw : w ≤ x := not_lt.mp hlt
      have := ih (x - w) (by linarith) (by linarith)
      simp only [List.length_cons]
      omega

theorem randDistrib_ok (expf : ℚ → ℚ) (hexp : ∀ x, 0 < expf x)
    (rd : SampleRandDistrib) (res : Resources) (hrng : res.hasRng = true)
    (lg : Logits) (hne : lg.logits ≠ [])
    (hx0 : 0 ≤ res.rngStream res.rngCount)
    (hx1 : res.rngStream res.rngCount < 1) :
    ∃ idx, idx < (lg.softmax expf).logits.length ∧
      randDistribSample expf rd res lg
        = .ok (⟨some (((lg.softmax expf).logits.getD idx default).token_id)⟩,
            { res with rngCount := res.rngCount + 1 }, lg.softmax expf) := by
  have hE := isEmpty_false_of_ne hne
  have hpos := softmax_prob_pos expf hexp lg hne
  have hsum := softmax_probs_sum_one expf hexp lg hne
  have hwsne : (lg.softmax expf).logits.map (fun l => l.prob) ≠ [] := by
    intro h
    simp only [List.map_eq_nil_iff] at h
    exact softmax_ne expf lg hne h
  have hW : weightedIndexNew ((lg.softmax expf).logits.map (fun l => l.prob))
      = .ok ((lg.softmax expf).logits.map (fun l => l.prob)) := by
    unfold weightedIndexNew
    rw [if_neg (by rw [isEmpty_false_of_ne hwsne]; simp),
      if_neg ?_, if_neg (by rw [hsum]; norm_num)]
    rw [show ((lg.softmax expf).logits.map (fun l => l.prob)).any
        (fun w => decide (w < 0)) = false from ?_]
    · simp
    · rw [List.any_eq_false]
      intro p hp
      obtain ⟨l2, hl2, rfl⟩ := List.mem_map.mp hp
      simp only [decide_eq_true_eq, not_lt]
      exact le_of_lt (hpos l2 hl2)
  refine ⟨weightedIndexSample ((lg.softmax expf).logits.map (fun l => l.prob))
      (res.rngStream res.rngCount), ?_, ?_⟩
  · have := weightedIndexSample_lt
      ((lg.softmax expf).logits.map (fun l => l.prob))
      (res.rngStream res.rngCount) hx0 (by rw [hsum]; exact hx1)
    simpa using this
  · unfold randDistribSample
    rw [hE]
    simp only [Bool.false_eq_true, if_false]
    rw [hW]
    rw [hrng]
    rfl

/-- C10: on every non-empty buffer, with an RNG resource present (and any
positive realisation of `exp`, with uniform draws in `[0,1)`),
`SampleMirostat2::sample` succeeds and consumes exactly **two** draws from
the RNG resource — its embedded random-distribution selector runs once via
`sample` and once more inside `sample_token` — and the reported token, the
stored selector state and the `mu` update are all computed from the
**second** draw (the `randDistribSample` conjunct below is the second
call: it starts at draw counter `rngCount + 1`). -/
theorem C10_mirostat2_two_draws (expf log2f : ℚ → ℚ)
    (hexp : ∀ x, 0 < expf x) (s : SampleMirostat2) (res : Resources)
    (hrng : res.hasRng = true) (lg : Logits) (hne : lg.logits ≠ [])
    (hstream : ∀ k, 0 ≤ res.rngStream k ∧ res.rngStream k < 1) :
    ∃ s' lg' tid entry lgmid,
      mirostat2Sample expf log2f s res lg
        = .ok (s', { res with rngCount := res.rngCount + 2 }, lg') ∧
      s'.token = some tid ∧
      s'.rd_sampler.token_id = some tid ∧
      randDistribSample expf ⟨none⟩
          { res with rngCount := res.rngCount + 1 } lgmid
        = .ok (⟨some tid⟩, { res with rngCount := res.rngCount + 2 }, lg') ∧
      lg'.logits.find? (fun l => decide (l.token_id = tid)) = some entry ∧
      s'.mu = s.mu - (s.eta * (-(log2f entry.prob) - s.tau)) ∧
      s'.tau = s.tau ∧ s'.eta = s.eta := by
  have hE := isEmpty_false_of_ne hne
  set A := lg.softmax expf with hA
  set ns := max ((A.logits.findIdx?
    (fun l => decide (s.mu < -(log2f l.prob)))).getD 0) 1 with hns
  set B : Logits := { A with logits := A.logits.take ns } with hB
  set C := B.softmax expf with hC
  have hAlen : A.logits.length = lg.logits.length := by
    rw [hA]; exact length_softmax expf lg
  have hBlog : B.logits = A.logits.take ns := by rw [hB]
  have hBne : B.logits ≠ [] := by
    rw [hBlog]
    intro h
    have hlen := congrArg List.length h
    simp only [List.length_take, List.length_nil] at hlen
    rcases Nat.min_eq_zero_iff.mp hlen with h1 | h1
    · have h2 : 1 ≤ ns := by rw [hns]; exact le_max_right _ 1
      omega
    · rw [hAlen] at h1
      exact hne (List.length_eq_zero.mp h1)
  have hCne : C.logits ≠ [] := by rw [hC]; exact softmax_ne expf B hBne
  obtain ⟨idx1, hidx1, hcall1⟩ := randDistrib_ok expf hexp s.rd_sampler res
    hrng C hCne (hstream res.rngCount).1 (hstream res.rngCount).2
  set D := C.softmax expf with hD
  have hDne : D.logits ≠ [] := by rw [hD]; exact softmax_ne expf C hCne
  set tid1 := (D.logits.getD idx1 default).token_id with htid1
  obtain ⟨idx2, hidx2, hcall2⟩ := randDistrib_ok expf hexp ⟨some tid1⟩
    { res with rngCount := res.rngCount + 1 } hrng D hDne
    (hstream (res.rngCount + 1)).1 (hstream (res.rngCount + 1)).2
  set E := D.softmax expf with hEdef
  have hEne : E.logits ≠ [] := by rw [hEdef]; exact softmax_ne expf D hDne
  set tid2 := (E.logits.getD idx2 default).token_id with htid2
  have hmem : E.logits.getD idx2 default ∈ E.logits := by
    rw [List.getD_eq_getElem?_getD, List.getElem?_eq_getElem hidx2]
    exact List.getElem_mem hidx2
  have hpred : (fun l => decide (l.token_id = tid2))
      (E.logits.getD idx2 default) = true := by
    rw [htid2]; simp
  have hsome : (E.logits.find?
      (fun l => decide (l.token_id = tid2))).isSome := by
    rw [List.find?_isSome]
    exact ⟨_, hmem, hpred⟩
  obtain ⟨entry, hentry⟩ := Option.isSome_iff_exists.mp hsome
  refine ⟨{ s with
              rd_sampler := ⟨some tid2⟩,
              mu := s.mu - (s.eta * (-(log2f entry.prob) - s.tau)),
              token := some tid2 },
    E, tid2, entry, D, ?_, rfl, rfl, ?_, hentry, rfl, rfl, rfl⟩
  · unfold mirostat2Sample
    rw [hE]
    simp only [Bool.false_eq_true, if_false]
    rw [← hA, ← hns, ← hB, ← hC, hcall1]
    simp only []
    rw [hcall2]
    simp only []
    rw [hentry]
  · exact hcall2

/-- A one-entry buffer, an RNG stream of constant `1/2`, and trivial
realisations of `exp`/`log2` for the C10 witness. -/
def lgC10 : Logits := { sorted := true, logits := [⟨0, 1, 0⟩] }

/-- Mirostat-2 state for the C10 witness (`tau = 5`, `eta = 1`,
`mu = 10`). -/
def m2C10 : SampleMirostat2 := ⟨5, 1, 10, none, ⟨none⟩⟩

/-- Resources for the C10 witness: an RNG present, zero draws consumed. -/
def resC10 : Resources := ⟨true, fun _ => 1/2, 0⟩

/-- Witness for `C10_mirostat2_two_draws` at concrete inputs. -/
theorem C10_mirostat2_two_draws_witness :
    ∃ s' lg' tid entry lgmid,
      mirostat2Sample (fun _ => 1) (fun _ => 0) m2C10 resC10 lgC10
        = .ok (s', { resC10 with rngCount := resC10.rngCount + 2 }, lg') ∧
      s'.token = some tid ∧
      s'.rd_sampler.token_id = some tid ∧
      randDistribSample (fun _ => 1) ⟨none⟩
          { resC10 with rngCount := resC10.rngCount + 1 } lgmid
        = .ok (⟨some tid⟩, { resC10 with rngCount := resC10.rngCount + 2 },
            lg') ∧
      lg'.logits.find? (fun l => decide (l.token_id = tid)) = some entry ∧
      s'.mu = m2C10.mu - (m2C10.eta * (-((0:ℚ)) - m2C10.tau)) ∧
      s'.tau = m2C10.tau ∧ s'.eta = m2C10.eta := by
  have h := C10_mirostat2_two_draws (fun _ => 1) (fun _ => 0)
    (fun _ => by norm_num) m2C10 resC10 rfl lgC10
    (List.cons_ne_nil _ _) (fun k => by constructor <;> norm_num [resC10])
  simpa using h

end LlmSamplers
